import Mathlib

/-!
Shallow embedding of the calculation logic of the workcover case-management
dashboard (src/app.py and src/doc_generator.py):

* the PIAWE quick-calculator form and the payroll pay-period form,
* the certificate-of-capacity status evaluator,
* the capacity-to-duty-level mapping and the 4-week progressive
  return-to-work scheduler (with its half-even rounding to one decimal),
* the dashboard alert ordering (a stable sort by severity rank), and
* the COC-insertion update of a case's current-capacity field.

Monetary amounts and weekly hours are embedded as exact rationals; dates are
embedded as integers (days), so a `cert_to - today` difference of days is an
integer subtraction.  Python's `round(x, 1)` (round-half-to-even) is embedded
as an exact half-even rounding on rationals.
-/

namespace Workcover

/-- Output record of the PIAWE Quick Calculator form
(src/app.py, form `piawe_calc`, lines 1543–1557). -/
structure CalcResult where
  entitled : ℚ
  daily_rate : ℚ
  compensation : ℚ
  top_up : ℚ
  total : ℚ

/-- The PIAWE Quick Calculator submit handler (src/app.py lines 1543–1557).
`period95` models the two-option entitlement-period selectbox
("Weeks 1-13 (95%)" vs "Weeks 14-130 (80%)");  the form bounds are
`calc_piawe ≥ 0`, `calc_cwe ≥ 0`, `1 ≤ calc_days ≤ 14`, `calc_backpay ≥ 0`. -/
def piawe_calc (calc_piawe : ℚ) (period95 : Bool) (calc_cwe : ℚ)
    (calc_days : ℕ) (calc_backpay : ℚ) : CalcResult :=
  let rate : ℚ := if period95 then 0.95 else 0.80
  let entitled := calc_piawe * rate
  let daily_rate := entitled / 5
  let compensation :=
    if 0 < calc_cwe then max 0 (entitled - calc_cwe * rate)
    else if calc_days ≠ 10 then entitled * ((calc_days : ℚ) / 5) else entitled * 2
  let top_up :=
    if 0 < calc_cwe then
      (if calc_cwe < entitled then max 0 (entitled - calc_cwe) else 0)
    else 0
  { entitled := entitled, daily_rate := daily_rate,
    compensation := compensation, top_up := top_up,
    total := calc_cwe + compensation + calc_backpay }

/-- Output record of the payroll pay-period form
(src/app.py, form `payroll_entry`, lines 1637–1647). -/
structure PayrollResult where
  entitled : ℚ
  compensation : ℚ
  top_up : ℚ
  total : ℚ

/-- The payroll "Calculate & Save" handler (src/app.py lines 1637–1647).
Here the rate is a free numeric input (defaulted from the case record), and
the positive-wages branch sets `compensation := top_up = max 0 (entitled -
wages)` — it does not multiply the wages by the rate. -/
def payroll_calc (pay_piawe pay_rate pay_wages : ℚ) (pay_days : ℕ)
    (pay_backpay : ℚ) : PayrollResult :=
  let entitled := pay_piawe * pay_rate
  let top_up := if 0 < pay_wages then max 0 (entitled - pay_wages) else 0
  let compensation :=
    if 0 < pay_wages then max 0 (entitled - pay_wages)
    else (entitled / 5) * (pay_days : ℚ)
  { entitled := entitled, compensation := compensation, top_up := top_up,
    total := pay_wages + compensation + pay_backpay }

/-- C1: on the quick calculator, for PIAWE ≥ 0, rate ∈ {0.80, 0.95}, back-pay
≥ 0 and current weekly earnings > 0 (modified duties): entitlement =
PIAWE·rate, compensation = max(0, entitlement − earnings·rate), top-up =
max(0, entitlement − earnings) and is reported (i.e. positive) exactly when
earnings < entitlement, and total payable = earnings + compensation +
back-pay. -/
theorem piawe_calc_modified_duties
    (piawe cwe backpay rate : ℚ) (b : Bool) (days : ℕ)
    (hrate : rate = if b then (0.95 : ℚ) else 0.80)
    (hp : 0 ≤ piawe) (hb : 0 ≤ backpay) (hc : 0 < cwe) :
    (piawe_calc piawe b cwe days backpay).entitled = piawe * rate ∧
    (piawe_calc piawe b cwe days backpay).compensation
      = max 0 (piawe * rate - cwe * rate) ∧
    (piawe_calc piawe b cwe days backpay).top_up
      = max 0 (piawe * rate - cwe) ∧
    (0 < (piawe_calc piawe b cwe days backpay).top_up ↔ cwe < piawe * rate) ∧
    (piawe_calc piawe b cwe days backpay).total
      = cwe + (piawe_calc piawe b cwe days backpay).compensation + backpay := by
  subst hrate
  by_cases hlt : cwe < piawe * (if b then (0.95 : ℚ) else 0.80)
  · refine ⟨rfl, ?_, ?_, ?_, ?_⟩ <;>
      simp only [piawe_calc, if_pos hc, if_pos hlt]
    · constructor
      · intro _; exact hlt
      · intro _
        have : (0:ℚ) < piawe * (if b then (0.95 : ℚ) else 0.80) - cwe := by
          linarith
        rw [max_eq_right (le_of_lt this)]
        exact this
  · refine ⟨rfl, ?_, ?_, ?_, ?_⟩ <;>
      simp only [piawe_calc, if_pos hc, if_neg hlt]
    · rw [max_eq_left]
      linarith [not_lt.mp hlt]
    · simp only [lt_self_iff_false, false_iff]
      exact hlt

/-- Witness for C1 at the spec's worked example: PIAWE = 1000, rate = 0.80,
CWE = 400, back-pay = 0. -/
theorem piawe_calc_modified_duties_witness :
    (piawe_calc 1000 false 400 10 0).compensation
        = max 0 (1000 * 0.80 - 400 * 0.80) ∧
    (piawe_calc 1000 false 400 10 0).top_up = max 0 (1000 * 0.80 - 400) := by
  have h := piawe_calc_modified_duties 1000 400 0 0.80 false 10
    (by norm_num) (by norm_num) (by norm_num) (by norm_num)
  exact ⟨h.2.1, h.2.2.1⟩

/-- C2: on the quick calculator with zero current weekly earnings and days in
1..14, compensation = daily_rate · days with daily_rate = entitlement / 5 —
for every value of days, including the special-cased days = 10 branch
(`entitled * 2`), which yields the same value. -/
theorem piawe_calc_no_earnings
    (piawe backpay rate : ℚ) (b : Bool) (days : ℕ)
    (hrate : rate = if b then (0.95 : ℚ) else 0.80)
    (h1 : 1 ≤ days) (h2 : days ≤ 14) :
    (piawe_calc piawe b 0 days backpay).daily_rate = piawe * rate / 5 ∧
    (piawe_calc piawe b 0 days backpay).compensation
      = (piawe * rate / 5) * (days : ℕ) := by
  subst hrate
  by_cases hd : days = 10
  · subst hd
    refine ⟨rfl, ?_⟩
    simp only [piawe_calc, lt_self_iff_false, if_false]
    norm_num
    split_ifs <;> ring
  · refine ⟨rfl, ?_⟩
    simp only [piawe_calc, lt_self_iff_false, if_false, if_neg, hd,
      ne_eq, not_false_eq_true, if_true]
    ring

/-- Witness for C2 at the spec's example: PIAWE = 1000, rate = 0.95, CWE = 0,
days = 10: compensation = 950/5 · 10 = 1900. -/
theorem piawe_calc_no_earnings_witness :
    (piawe_calc 1000 true 0 10 0).compensation = (1000 * 0.95 / 5) * (10:ℕ) :=
  (piawe_calc_no_earnings 1000 0 0.95 true 10 (by norm_num) (by norm_num)
    (by norm_num)).2

/-- Counterexample to C3: at PIAWE = 1000, rate = 0.80, wages = CWE = 400,
days = 10, back-pay = 0 the quick calculator computes compensation 480 and
total 880, while the payroll page computes compensation 400 and total 800. -/
theorem payroll_vs_calc_counterexample :
    (piawe_calc 1000 false 400 10 0).compensation = 480 ∧
    (payroll_calc 1000 0.80 400 10 0).compensation = 400 ∧
    (piawe_calc 1000 false 400 10 0).total = 880 ∧
    (payroll_calc 1000 0.80 400 10 0).total = 800 ∧
    (piawe_calc 1000 false 400 10 0).compensation
      ≠ (payroll_calc 1000 0.80 400 10 0).compensation := by
  refine ⟨?_, ?_, ?_, ?_, ?_⟩ <;> norm_num [piawe_calc, payroll_calc]

/-- C3 as amended: for identical inputs, the payroll page and the quick
calculator agree on compensation, top-up, and total payable when wages are
zero (the full-incapacity branch, for every days 1..14); when wages are
positive the payroll page instead computes compensation = top-up =
max(0, entitlement − wages), without the calculator's second application of
the rate to the wages. -/
theorem payroll_vs_calc_amended
    (piawe backpay wages rate : ℚ) (b : Bool) (days : ℕ)
    (hrate : rate = if b then (0.95 : ℚ) else 0.80)
    (h1 : 1 ≤ days) (h2 : days ≤ 14) :
    ((piawe_calc piawe b 0 days backpay).compensation
        = (payroll_calc piawe rate 0 days backpay).compensation ∧
      (piawe_calc piawe b 0 days backpay).top_up
        = (payroll_calc piawe rate 0 days backpay).top_up ∧
      (piawe_calc piawe b 0 days backpay).total
        = (payroll_calc piawe rate 0 days backpay).total) ∧
    (0 < wages →
      (payroll_calc piawe rate wages days backpay).compensation
          = max 0 (piawe * rate - wages) ∧
      (payroll_calc piawe rate wages days backpay).compensation
          = (payroll_calc piawe rate wages days backpay).top_up) := by
  subst hrate
  constructor
  · have hcomp : (piawe_calc piawe b 0 days backpay).compensation
        = (payroll_calc piawe (if b then (0.95 : ℚ) else 0.80) 0 days
            backpay).compensation := by
      by_cases hd : days = 10
      · subst hd
        simp only [piawe_calc, payroll_calc, lt_self_iff_false, if_false]
        norm_num
        split_ifs <;> ring
      · simp only [piawe_calc, payroll_calc, lt_self_iff_false, if_false,
          if_neg, hd, ne_eq, not_false_eq_true, if_true]
        ring
    refine ⟨hcomp, ?_, ?_⟩
    · simp [piawe_calc, payroll_calc]
    · simp only [piawe_calc, payroll_calc, lt_self_iff_false, if_false] at hcomp ⊢
      rw [hcomp]
  · intro hw
    exact ⟨by simp [payroll_calc, if_pos hw], by simp [payroll_calc, if_pos hw]⟩

/-- Witness for C3 (amended) at PIAWE = 1000, rate = 0.95, days = 10,
wages = 400. -/
theorem payroll_vs_calc_amended_witness :
    (piawe_calc 1000 true 0 10 0).compensation
        = (payroll_calc 1000 0.95 0 10 0).compensation ∧
    (payroll_calc 1000 0.95 400 10 0).compensation
        = max 0 (1000 * 0.95 - 400) := by
  have h := payroll_vs_calc_amended 1000 0 400 0.95 true 10
    (by norm_num) (by norm_num) (by norm_num)
  exact ⟨h.1.1, (h.2 (by norm_num)).1⟩

/-- Status classification returned by `coc_status` (src/app.py lines
135–149).  The integer payloads model the day counts interpolated into the
formatted status strings ("EXPIRED (nd ago)", "EXPIRING (nd)",
"Current (nd left)"). -/
inductive CocStatus where
  | missing
  | invalid
  | expired (days_over : ℤ)
  | expiring (days_left : ℤ)
  | currentStatus (days_left : ℤ)
deriving DecidableEq

/-- `coc_status` (src/app.py lines 135–149).  Dates are embedded as integer
day numbers.  The input models the Python argument: `none` is a falsy
certificate string (absent certificate), `some none` a non-empty string that
`strptime` fails to parse (the caught `ValueError`/`TypeError`), and
`some (some d)` a string parsing to day `d`.  The second component is the
colour the page pairs with the status.  The Lean function is total by
construction, mirroring that the Python function catches its only failing
operation. -/
def coc_status (cert_to : Option (Option ℤ)) (today : ℤ) : CocStatus × String :=
  match cert_to with
  | none => (.missing, "red")
  | some none => (.invalid, "gray")
  | some (some d) =>
    let delta := d - today
    if delta < 0 then (.expired (-delta), "red")
    else if delta ≤ 7 then (.expiring delta, "orange")
    else (.currentStatus delta, "green")

/-- C4: `coc_status` is total (a Lean function, never raising) and classifies
every input: Missing iff no certificate string exists, Invalid iff the date
cannot be parsed, Expired carrying the overdue-day count iff cert_to < today,
Expiring iff 0 ≤ cert_to − today ≤ 7 (so zero days remaining is Expiring,
not Expired), and Current iff cert_to − today > 7. -/
theorem coc_status_characterization (c : Option (Option ℤ)) (t : ℤ) :
    ((coc_status c t).1 = .missing ↔ c = none) ∧
    ((coc_status c t).1 = .invalid ↔ c = some none) ∧
    (∀ d : ℤ, c = some (some d) →
      (((coc_status c t).1 = .expired (t - d)) ↔ d < t) ∧
      (((coc_status c t).1 = .expiring (d - t)) ↔ 0 ≤ d - t ∧ d - t ≤ 7) ∧
      (((coc_status c t).1 = .currentStatus (d - t)) ↔ 7 < d - t)) := by
  rcases c with _ | (_ | d)
  · simp [coc_status]
  · simp [coc_status]
  · refine ⟨by simp [coc_status]; split_ifs <;> simp,
      by simp [coc_status]; split_ifs <;> simp, ?_⟩
    intro d' hd'
    have hdd : d' = d := by
      injection hd' with h₁
      injection h₁ with h₂
      exact h₂.symm
    subst hdd
    simp only [coc_status]
    split_ifs with hneg hle
    · refine ⟨?_, ?_, ?_⟩
      · simp only [CocStatus.expired.injEq]
        constructor
        · intro _; omega
        · intro _; omega
      · simp only [reduceCtorEq, false_iff]
        omega
      · simp only [reduceCtorEq, false_iff]
        omega
    · refine ⟨?_, ?_, ?_⟩
      · simp only [reduceCtorEq, false_iff]
        omega
      · simp only [CocStatus.expiring.injEq, true_iff]
        omega
      · simp only [reduceCtorEq, false_iff]
        omega
    · refine ⟨?_, ?_, ?_⟩
      · simp only [reduceCtorEq, false_iff]
        omega
      · simp only [reduceCtorEq, false_iff]
        omega
      · simp only [CocStatus.currentStatus.injEq, true_iff]
        omega

/-- Witness for C4: a certificate ending on day 5 seen on day 10 is expired
by 5 days; one ending on day 10 seen on day 10 is expiring with 0 days
remaining. -/
theorem coc_status_characterization_witness :
    (coc_status (some (some 5)) 10).1 = .expired 5 ∧
    (coc_status (some (some 10)) 10).1 = .expiring 0 := by
  constructor
  · exact (((coc_status_characterization (some (some 5)) 10).2.2 5
      rfl).1).mpr (by norm_num)
  · have h := (((coc_status_characterization (some (some 10)) 10).2.2 10
      rfl).2.1).mpr (by norm_num)
    simpa using h

/-- Python's substring test `nee in hay` on lists of characters. -/
def containsSub (hay nee : List Char) : Bool :=
  match hay with
  | [] => nee.isEmpty
  | c :: tl => nee.isPrefixOf (c :: tl) || containsSub tl nee

/-- Python's `str.lower()` restricted to the ASCII labels this repository
uses. -/
def lowerStr (s : String) : String :=
  ⟨s.data.map Char.toLower⟩

/-- `nee in hay` at the string level. -/
def strContains (hay nee : String) : Bool :=
  containsSub hay.data nee.data

/-- `_get_suitable_level` (src/doc_generator.py lines 198–209): duty level
from the free-text capacity label.  `none` and the empty string model the
falsy `capacity` argument. -/
def _get_suitable_level (capacity : Option String) : ℕ :=
  match capacity with
  | none => 1
  | some s =>
    if s = "" then 1
    else
      let cap := lowerStr s
      if strContains cap "no capacity" then 1
      else if strContains cap "modified" then 2
      else if strContains cap "full" || strContains cap "clearance" then 4
      else 2

/-- Counterexample to C6: an absent capacity label maps to level 1 (the same
as "no capacity"), not to the claimed conservative default 2; and the label
"Cleared" maps to the default level 2, not to the claimed level 4, because
the code only substring-matches "clearance", never "cleared". -/
theorem get_suitable_level_counterexample :
    _get_suitable_level none = 1 ∧
    _get_suitable_level (some "Cleared") = 2 ∧
    _get_suitable_level none ≠ 2 ∧
    _get_suitable_level (some "Cleared") ≠ 4 := by
  refine ⟨rfl, ?_, by decide, ?_⟩ <;> decide

/-- C6 as amended: the mapping is a case-insensitive substring match with
precedence order "no capacity" before "modified" before "full"/"clearance":
an absent or empty label maps to level 1; otherwise a label containing
"no capacity" maps to 1; else one containing "modified" to 2; else one
containing "full" or "clearance" (but not a bare "cleared") to 4; and
anything else to the default 2. -/
theorem get_suitable_level_amended (s : String) :
    _get_suitable_level none = 1 ∧
    _get_suitable_level (some "") = 1 ∧
    (strContains (lowerStr s) "no capacity" = true →
      _get_suitable_level (some s) = 1) ∧
    (s ≠ "" → strContains (lowerStr s) "no capacity" = false →
      strContains (lowerStr s) "modified" = true →
      _get_suitable_level (some s) = 2) ∧
    (s ≠ "" → strContains (lowerStr s) "no capacity" = false →
      strContains (lowerStr s) "modified" = false →
      (strContains (lowerStr s) "full" || strContains (lowerStr s) "clearance")
        = true →
      _get_suitable_level (some s) = 4) ∧
    (s ≠ "" → strContains (lowerStr s) "no capacity" = false →
      strContains (lowerStr s) "modified" = false →
      strContains (lowerStr s) "full" = false →
      strContains (lowerStr s) "clearance" = false →
      _get_suitable_level (some s) = 2) := by
  refine ⟨rfl, by decide, ?_, ?_, ?_, ?_⟩
  · intro h1
    by_cases he : s = ""
    · subst he
      simp [strContains, lowerStr, containsSub] at h1
    · simp [_get_suitable_level, he, h1]
  · intro he h1 h2
    simp [_get_suitable_level, he, h1, h2]
  · intro he h1 h2 h3
    simp [_get_suitable_level, he, h1, h2, h3]
  · intro he h1 h2 h3 h4
    simp [_get_suitable_level, he, h1, h2, h3, h4]

/-- Witness for C6 (amended) at the labels the COC form offers: "No Capacity"
maps to 1, "Modified Duties" to 2, "Clearance" to 4, and the near-miss
"Uncertain" to the default 2. -/
theorem get_suitable_level_amended_witness :
    _get_suitable_level (some "No Capacity") = 1 ∧
    _get_suitable_level (some "Modified Duties") = 2 ∧
    _get_suitable_level (some "Clearance") = 4 ∧
    _get_suitable_level (some "Uncertain") = 2 := by
  refine ⟨?_, ?_, ?_, ?_⟩
  · exact (get_suitable_level_amended "No Capacity").2.2.1 (by decide)
  · exact (get_suitable_level_amended "Modified Duties").2.2.2.1
      (by decide) (by decide) (by decide)
  · exact (get_suitable_level_amended "Clearance").2.2.2.2.1
      (by decide) (by decide) (by decide) (by decide)
  · exact (get_suitable_level_amended "Uncertain").2.2.2.2.2
      (by decide) (by decide) (by decide) (by decide) (by decide)

/-- The integer Python's banker's rounding sends a rational to: the nearest
integer, with exact halves going to the even neighbour. -/
def halfEven (y : ℚ) : ℤ :=
  if y - ⌊y⌋ < 1/2 then ⌊y⌋
  else if 1/2 < y - ⌊y⌋ then ⌊y⌋ + 1
  else if ⌊y⌋ % 2 = 0 then ⌊y⌋ else ⌊y⌋ + 1

lemma halfEven_intCast (n : ℤ) : halfEven (n : ℚ) = n := by
  norm_num [halfEven]

lemma halfEven_ge_floor (y : ℚ) : ⌊y⌋ ≤ halfEven y := by
  unfold halfEven
  split_ifs <;> omega

lemma halfEven_le_floor_add_one (y : ℚ) : halfEven y ≤ ⌊y⌋ + 1 := by
  unfold halfEven
  split_ifs <;> omega

lemma halfEven_mono : Monotone halfEven := by
  intro a b h
  have hf : ⌊a⌋ ≤ ⌊b⌋ := Int.floor_le_floor h
  rcases eq_or_lt_of_le hf with heq | hlt
  · unfold halfEven
    rw [← heq]
    split_ifs <;> first | omega | linarith
  · calc halfEven a ≤ ⌊a⌋ + 1 := halfEven_le_floor_add_one a
      _ ≤ ⌊b⌋ := by omega
      _ ≤ halfEven b := halfEven_ge_floor b

/-- Python's `round(x, 1)` on exact rationals (src/doc_generator.py applies
it to each schedule entry). -/
def rnd1 (x : ℚ) : ℚ := (halfEven (10 * x) : ℚ) / 10

lemma rnd1_mono {a b : ℚ} (h : a ≤ b) : rnd1 a ≤ rnd1 b := by
  unfold rnd1
  have h1 : halfEven (10 * a) ≤ halfEven (10 * b) :=
    halfEven_mono (by linarith)
  have h2 : ((halfEven (10 * a) : ℤ) : ℚ) ≤ ((halfEven (10 * b) : ℤ) : ℚ) := by
    exact_mod_cast h1
  linarith

/-- A multiple of one tenth is a fixed point of `rnd1`. -/
lemma rnd1_tenth (k : ℤ) : rnd1 ((k : ℚ) / 10) = (k : ℚ) / 10 := by
  unfold rnd1
  rw [show (10 : ℚ) * ((k : ℚ) / 10) = (k : ℚ) by ring, halfEven_intCast]

/-- The guard `if not current_hours or current_hours <= 0: current_hours = 3`
of `_build_progressive_hours` (src/doc_generator.py lines 214–215);  `none`
models a `None` argument. -/
def effective_current : Option ℚ → ℚ
  | none => 3
  | some x => if x ≤ 0 then 3 else x

/-- The guard `if not pre_injury_hours or pre_injury_hours <= 0:
pre_injury_hours = 38` (src/doc_generator.py lines 216–217). -/
def effective_target : Option ℚ → ℚ
  | none => 38
  | some x => if x ≤ 0 then 38 else x

/-- `_build_progressive_hours` (src/doc_generator.py lines 212–224): after
the two guards, `step = (pre_injury - current) / max(weeks - 1, 1)` and entry
`w` is `round(min(current + step * w, pre_injury), 1)`. -/
def _build_progressive_hours (current_hours pre_injury_hours : Option ℚ)
    (weeks : ℕ := 4) : List ℚ :=
  let c := effective_current current_hours
  let t := effective_target pre_injury_hours
  let step := (t - c) / ((max (weeks - 1) 1 : ℕ) : ℚ)
  (List.range weeks).map (fun w => rnd1 (min (c + step * (w : ℚ)) t))

lemma build_progressive_hours_four (ch ph : Option ℚ) :
    _build_progressive_hours ch ph =
      [rnd1 (min (effective_current ch) (effective_target ph)),
       rnd1 (min (effective_current ch +
         (effective_target ph - effective_current ch) / 3)
         (effective_target ph)),
       rnd1 (min (effective_current ch +
         (effective_target ph - effective_current ch) / 3 * 2)
         (effective_target ph)),
       rnd1 (min (effective_current ch +
         (effective_target ph - effective_current ch) / 3 * 3)
         (effective_target ph))] := by
  simp only [_build_progressive_hours]
  norm_num [List.range_succ]

/-- Counterexample to C5: with current_hours = 10 > target_hours = 5 the
schedule is [5, 5, 5, 5], so hours[0] = 5 ≠ current_hours; and with
current_hours = 3 and the fractional target 954/25 = 38.16 the rounded
final entry 191/5 = 38.2 exceeds target_hours. -/
theorem build_progressive_hours_counterexample :
    _build_progressive_hours (some 10) (some 5) = [5, 5, 5, 5] ∧
    (5 : ℚ) ≠ 10 ∧
    _build_progressive_hours (some 3) (some (954/25))
      = [3, 147/10, 132/5, 191/5] ∧
    (954/25 : ℚ) < 191/5 := by
  refine ⟨?_, by norm_num, ?_, by norm_num⟩ <;>
    rw [build_progressive_hours_four] <;>
    norm_num [effective_current, effective_target, rnd1, halfEven]

/-- C5 as amended: for current_hours and target_hours that are positive
multiples of 0.1 with current_hours ≤ target_hours, the 4-entry schedule is
[current, h₁, h₂, target] with current ≤ h₁ ≤ h₂ ≤ target — monotonically
non-decreasing, bounded by target_hours, starting exactly at current_hours
(and in fact ending exactly at target_hours). -/
theorem build_progressive_hours_amended
    (c t : ℚ) (kc kt : ℤ) (hc0 : 0 < c) (ht0 : 0 < t) (hct : c ≤ t)
    (hkc : c = (kc : ℚ) / 10) (hkt : t = (kt : ℚ) / 10) :
    ∃ h₁ h₂ : ℚ, _build_progressive_hours (some c) (some t) = [c, h₁, h₂, t] ∧
      c ≤ h₁ ∧ h₁ ≤ h₂ ∧ h₂ ≤ t := by
  have hc' : effective_current (some c) = c := if_neg (not_le.mpr hc0)
  have ht' : effective_target (some t) = t := if_neg (not_le.mpr ht0)
  have hdiv : (t - c) / 3 * 3 = t - c := by ring
  have hs : 0 ≤ (t - c) / 3 := by
    apply div_nonneg (by linarith) (by norm_num)
  have hm0 : min c t = c := min_eq_left hct
  have hm1 : min (c + (t - c) / 3) t = c + (t - c) / 3 :=
    min_eq_left (by linarith)
  have hm2 : min (c + (t - c) / 3 * 2) t = c + (t - c) / 3 * 2 :=
    min_eq_left (by linarith)
  have hm3 : min (c + (t - c) / 3 * 3) t = t := by
    rw [hdiv]
    simp
  refine ⟨rnd1 (c + (t - c) / 3), rnd1 (c + (t - c) / 3 * 2), ?_, ?_, ?_, ?_⟩
  · rw [build_progressive_hours_four, hc', ht', hm0, hm1, hm2, hm3]
    rw [hkc, hkt, rnd1_tenth, rnd1_tenth]
  · calc c = rnd1 c := by rw [hkc, rnd1_tenth]
      _ ≤ rnd1 (c + (t - c) / 3) := rnd1_mono (by linarith)
  · exact rnd1_mono (by linarith)
  · calc rnd1 (c + (t - c) / 3 * 2) ≤ rnd1 t := rnd1_mono (by linarith)
      _ = t := by rw [hkt, rnd1_tenth]

/-- Witness for C5 (amended) at the spec's example current_hours = 3,
target_hours = 38. -/
theorem build_progressive_hours_amended_witness :
    ∃ h₁ h₂ : ℚ,
      _build_progressive_hours (some 3) (some 38) = [3, h₁, h₂, 38] ∧
      (3 : ℚ) ≤ h₁ ∧ h₁ ≤ h₂ ∧ h₂ ≤ 38 :=
  build_progressive_hours_amended 3 38 30 380 (by norm_num) (by norm_num)
    (by norm_num) (by norm_num) (by norm_num)

/-- C10: for inverted inputs 0 < target_hours ≤ current_hours the schedule
is constant — all four entries equal target_hours rounded to one decimal —
so the scheduler never produces a decreasing schedule. -/
theorem build_progressive_hours_inverted (c t : ℚ)
    (ht0 : 0 < t) (hct : t ≤ c) :
    _build_progressive_hours (some c) (some t)
      = [rnd1 t, rnd1 t, rnd1 t, rnd1 t] := by
  have hc0 : 0 < c := lt_of_lt_of_le ht0 hct
  have hc' : effective_current (some c) = c := if_neg (not_le.mpr hc0)
  have ht' : effective_target (some t) = t := if_neg (not_le.mpr ht0)
  have hdiv : (t - c) / 3 * 3 = t - c := by ring
  have hs : (t - c) / 3 ≤ 0 := by
    apply div_nonpos_of_nonpos_of_nonneg (by linarith) (by norm_num)
  have hm0 : min c t = t := min_eq_right hct
  have hm1 : min (c + (t - c) / 3) t = t := min_eq_right (by linarith)
  have hm2 : min (c + (t - c) / 3 * 2) t = t := min_eq_right (by linarith)
  have hm3 : min (c + (t - c) / 3 * 3) t = t := min_eq_right (by linarith)
  rw [build_progressive_hours_four, hc', ht', hm0, hm1, hm2, hm3]

/-- Witness for C10 at current_hours = 10, target_hours = 5. -/
theorem build_progressive_hours_inverted_witness :
    _build_progressive_hours (some 10) (some 5) = [5, 5, 5, 5] := by
  have h := build_progressive_hours_inverted 10 5 (by norm_num) (by norm_num)
  rw [h]
  norm_num [rnd1, halfEven]

/-- The current-hours computation of `generate_rtw_plan`
(src/doc_generator.py lines 954–962 and 1014–1015): `current_hours` is
`hours_per_day * days_per_week` when both are set and truthy, otherwise
`None`; then `if not current_hours: current_hours = 3 * (days_per_week or
3)`.  `none` models an absent (or non-numeric) med-data value and `some 0` a
zero one. -/
def rtw_current_hours (hours_per_day days_per_week : Option ℚ) : ℚ :=
  let cur : Option ℚ :=
    match hours_per_day, days_per_week with
    | some h, some d => if h ≠ 0 ∧ d ≠ 0 then some (h * d) else none
    | _, _ => none
  let fallback : ℚ :=
    3 * (match days_per_week with
         | none => 3
         | some d => if d = 0 then 3 else d)
  match cur with
  | none => fallback
  | some x => if x = 0 then fallback else x

/-- The target-hours computation of `generate_rtw_plan`
(src/doc_generator.py lines 964 and 1016–1019): `med.get("pre_injury_hours",
38)` followed by a float conversion whose failure falls back to 38.  `none`
models an absent or unconvertible value. -/
def rtw_target_hours (pre_injury_hours : Option ℚ) : ℚ :=
  match pre_injury_hours with
  | none => 38
  | some x => x

/-- The schedule `generate_rtw_plan` feeds to the hours table
(src/doc_generator.py line 1021). -/
def rtw_schedule (hours_per_day days_per_week pre_injury_hours : Option ℚ) :
    List ℚ :=
  _build_progressive_hours (some (rtw_current_hours hours_per_day days_per_week))
    (some (rtw_target_hours pre_injury_hours))

/-- Counterexample to C7: when certified weekly hours and days/week are both
unset, `generate_rtw_plan` uses 3 · (days_per_week or 3) = 9 as
current_hours, not the claimed minimum fallback of 3, and the schedule
starts at 9. -/
theorem rtw_current_hours_counterexample :
    rtw_current_hours none none = 9 ∧ (9 : ℚ) ≠ 3 ∧
    rtw_schedule none none none = [9, 187/10, 283/10, 38] := by
  refine ⟨by norm_num [rtw_current_hours], by norm_num, ?_⟩
  rw [rtw_schedule, build_progressive_hours_four]
  norm_num [rtw_current_hours, rtw_target_hours, effective_current,
    effective_target, rnd1, halfEven]

/-- C7 as amended: when current certified weekly hours are unset the
scheduler uses 3 × the certified days/week as current_hours; when days/week
is also unset (or zero) the default days/week of 3 makes current_hours
3 × 3 = 9 — not 3, which is only `_build_progressive_hours`'s guard for a
non-positive argument and is unreachable here; and when pre-injury hours are
unset target_hours defaults to 38. -/
theorem rtw_hours_fallbacks (d : ℚ) (hd : d ≠ 0) :
    rtw_current_hours none (some d) = 3 * d ∧
    rtw_current_hours none none = 9 ∧
    rtw_target_hours none = 38 := by
  refine ⟨?_, by norm_num [rtw_current_hours], rfl⟩
  simp [rtw_current_hours, hd]

/-- Witness for C7 (amended) at days/week = 5: the schedule then starts at
15 hours. -/
theorem rtw_hours_fallbacks_witness :
    rtw_current_hours none (some 5) = 3 * 5 :=
  (rtw_hours_fallbacks 5 (by norm_num)).1

/-- Alert severities of the dashboard (src/app.py lines 721–757). -/
inductive Severity where
  | urgent
  | warning
  | actionNeeded
  | info
deriving DecidableEq

/-- The sort key `{"URGENT": 0, "WARNING": 1, "ACTION": 2, "INFO": 3}`
(src/app.py line 757). -/
def sevRank : Severity → ℕ
  | .urgent => 0
  | .warning => 1
  | .actionNeeded => 2
  | .info => 3

/-- A dashboard alert: its severity plus the fields that identify it in the
list the dashboard builds (src/app.py lines 721–754). -/
structure Alert where
  severity : Severity
  worker : String
  message : String
deriving DecidableEq

/-- One insertion step of a stable insertion sort on the severity rank: the
new element goes before the first element of equal or higher rank, so an
element earlier in the input stays before equal-rank elements later in the
input.  This models Python's stable `sorted(alerts, key=...)`
(src/app.py line 757). -/
def insertAlert (x : Alert) : List Alert → List Alert
  | [] => [x]
  | y :: ys =>
    if sevRank x.severity ≤ sevRank y.severity then x :: y :: ys
    else y :: insertAlert x ys

/-- Stable sort of the alert list by severity rank. -/
def sortAlerts : List Alert → List Alert
  | [] => []
  | x :: xs => insertAlert x (sortAlerts xs)

/-- The sublist of alerts of one severity, in input order. -/
def sevFilter (s : Severity) (l : List Alert) : List Alert :=
  l.filter (fun a => a.severity = s)

lemma mem_sevFilter {s : Severity} {l : List Alert} {a : Alert}
    (h : a ∈ sevFilter s l) : a.severity = s := by
  have := List.of_mem_filter h
  simpa using this

lemma insertAlert_front {x : Alert} {bs : List Alert}
    (h : ∀ y ∈ bs, sevRank x.severity ≤ sevRank y.severity) :
    insertAlert x bs = x :: bs := by
  cases bs with
  | nil => rfl
  | cons b bs => exact if_pos (h b (List.mem_cons_self b bs))

lemma insertAlert_append {x : Alert} {as : List Alert} (bs : List Alert)
    (h : ∀ y ∈ as, sevRank y.severity < sevRank x.severity) :
    insertAlert x (as ++ bs) = as ++ insertAlert x bs := by
  induction as with
  | nil => rfl
  | cons a as ih =>
    have ha : sevRank a.severity < sevRank x.severity :=
      h a (List.mem_cons_self a as)
    simp only [List.cons_append, insertAlert, if_neg (not_le.mpr ha)]
    exact congrArg (fun l => a :: l) (ih (fun y hy => h y (List.mem_cons_of_mem a hy)))

/-- C8: sorting any alert list by severity rank yields exactly the URGENT
alerts (in input order), then the WARNING alerts, then the ACTION alerts,
then the INFO alerts: every URGENT alert precedes every WARNING alert,
every WARNING every ACTION, every ACTION every INFO, and the relative order
within each severity tier is the input (encounter) order. -/
theorem sortAlerts_groups (l : List Alert) :
    sortAlerts l = sevFilter .urgent l ++ sevFilter .warning l ++
      sevFilter .actionNeeded l ++ sevFilter .info l := by
  induction l with
  | nil => rfl
  | cons x xs ih =>
    have hurg : ∀ y ∈ sevFilter Severity.urgent xs,
        sevRank y.severity < 1 := by
      intro y hy; rw [mem_sevFilter hy]; norm_num [sevRank]
    have hwarn : ∀ y ∈ sevFilter Severity.warning xs,
        sevRank y.severity < 2 ∧ 1 ≤ sevRank y.severity := by
      intro y hy; rw [mem_sevFilter hy]; norm_num [sevRank]
    have hact : ∀ y ∈ sevFilter Severity.actionNeeded xs,
        sevRank y.severity < 3 ∧ 2 ≤ sevRank y.severity := by
      intro y hy; rw [mem_sevFilter hy]; norm_num [sevRank]
    have hinf : ∀ y ∈ sevFilter Severity.info xs,
        3 ≤ sevRank y.severity := by
      intro y hy; rw [mem_sevFilter hy]; norm_num [sevRank]
    show insertAlert x (sortAlerts xs) = _
    rw [ih]
    cases hx : x.severity with
    | urgent =>
      rw [insertAlert_front]
      · simp [sevFilter, List.filter, hx]
      · intro y _
        simp [sevRank, hx]
    | warning =>
      rw [List.append_assoc, List.append_assoc,
        insertAlert_append (sevFilter Severity.warning xs ++
          (sevFilter Severity.actionNeeded xs ++ sevFilter Severity.info xs))
          (fun y hy => by
            have := hurg y hy
            simp only [sevRank, hx] at this ⊢
            omega),
        insertAlert_front (fun y hy => by
          rcases List.mem_append.mp hy with h1 | h2
          · have := (hwarn y h1).2
            simp only [sevRank, hx] at this ⊢
            omega
          · rcases List.mem_append.mp h2 with h3 | h4
            · have := (hact y h3).2
              simp only [sevRank, hx] at this ⊢
              omega
            · have := hinf y h4
              simp only [sevRank, hx] at this ⊢
              omega)]
      simp [sevFilter, List.filter, hx]
    | actionNeeded =>
      rw [List.append_assoc, List.append_assoc,
        insertAlert_append (sevFilter Severity.warning xs ++
          (sevFilter Severity.actionNeeded xs ++ sevFilter Severity.info xs))
          (fun y hy => by
            have := hurg y hy
            simp only [sevRank, hx] at this ⊢
            omega),
        insertAlert_append (sevFilter Severity.actionNeeded xs ++
            sevFilter Severity.info xs)
          (fun y hy => by
            have := (hwarn y hy).1
            simp only [sevRank, hx] at this ⊢
            omega),
        insertAlert_front (fun y hy => by
          rcases List.mem_append.mp hy with h1 | h2
          · have := (hact y h1).2
            simp only [sevRank, hx] at this ⊢
            omega
          · have := hinf y h2
            simp only [sevRank, hx] at this ⊢
            omega)]
      simp [sevFilter, List.filter, hx]
    | info =>
      rw [List.append_assoc, List.append_assoc,
        insertAlert_append (sevFilter Severity.warning xs ++
          (sevFilter Severity.actionNeeded xs ++ sevFilter Severity.info xs))
          (fun y hy => by
            have := hurg y hy
            simp only [sevRank, hx] at this ⊢
            omega),
        insertAlert_append (sevFilter Severity.actionNeeded xs ++
            sevFilter Severity.info xs)
          (fun y hy => by
            have := (hwarn y hy).1
            simp only [sevRank, hx] at this ⊢
            omega),
        insertAlert_append (sevFilter Severity.info xs)
          (fun y hy => by
            have := (hact y hy).1
            simp only [sevRank, hx] at this ⊢
            omega),
        insertAlert_front (fun y hy => by
          have := hinf y hy
          simp only [sevRank, hx] at this ⊢
          omega)]
      simp [sevFilter, List.filter, hx]

/-- A certificate of capacity as stored by the COC insert statements
(src/app.py lines 491–494 and 1387–1392): its capacity label and its end
date (as an integer day number). -/
structure Cert where
  capacity : String
  cert_to : ℤ
deriving DecidableEq

/-- The slice of a case's state the COC insertion touches: its certificate
history and its `current_capacity` column. -/
structure CaseState where
  certs : List Cert
  current_capacity : String
deriving DecidableEq

/-- Both COC-insertion paths (the case-detail "Add COC" form, src/app.py
lines 489–498, and the COC-Tracker "Add Certificate" form, lines 1384–1399)
insert the new certificate row and then run `UPDATE cases SET
current_capacity = ?` with the new certificate's capacity, unconditionally. -/
def add_coc (s : CaseState) (c : Cert) : CaseState :=
  { certs := s.certs ++ [c], current_capacity := c.capacity }

/-- One step of selecting the certificate with the maximal end date,
preferring the later row on ties (the tie order of
`ORDER BY cert_to DESC LIMIT 1`, src/app.py line 198, is arbitrary). -/
def latestStep (acc : Option Cert) (c : Cert) : Option Cert :=
  match acc with
  | none => some c
  | some b => if b.cert_to ≤ c.cert_to then some c else some b

/-- The case's certificate with the latest end date, if any. -/
def latestCert (l : List Cert) : Option Cert :=
  l.foldl latestStep none

lemma foldl_latestStep_cases (l : List Cert) (acc : Option Cert) :
    l.foldl latestStep acc = acc ∨ ∃ b ∈ l, l.foldl latestStep acc = some b := by
  induction l generalizing acc with
  | nil => exact Or.inl rfl
  | cons x xs ih =>
    have hstep : latestStep acc x = acc ∨ latestStep acc x = some x := by
      cases acc with
      | none => exact Or.inr rfl
      | some b =>
        simp only [latestStep]
        split_ifs with h
        · exact Or.inr rfl
        · exact Or.inl rfl
    rcases ih (latestStep acc x) with h | ⟨b, hb, he⟩
    · rw [List.foldl_cons, h]
      rcases hstep with h2 | h2
      · exact Or.inl h2
      · exact Or.inr ⟨x, List.mem_cons_self x xs, h2⟩
    · exact Or.inr ⟨b, List.mem_cons_of_mem x hb, by rw [List.foldl_cons]; exact he⟩

lemma latestCert_append_ge (l : List Cert) (c : Cert)
    (h : ∀ b ∈ l, b.cert_to ≤ c.cert_to) :
    latestCert (l ++ [c]) = some c := by
  unfold latestCert
  rw [List.foldl_append]
  rcases foldl_latestStep_cases l none with hn | ⟨b, hb, he⟩
  · rw [hn]
    rfl
  · rw [he]
    simp only [List.foldl_cons, List.foldl_nil, latestStep]
    rw [if_pos (h b hb)]

/-- Counterexample to C9: a case holding a "Full Capacity" certificate
ending on day 100 receives a backdated "No Capacity" certificate ending on
day 50; both insertion paths then set `current_capacity` to "No Capacity",
while the certificate with the latest end date still has capacity
"Full Capacity". -/
theorem add_coc_counterexample :
    (add_coc ⟨[⟨"Full Capacity", 100⟩], "Full Capacity"⟩
        ⟨"No Capacity", 50⟩).current_capacity = "No Capacity" ∧
    latestCert (add_coc ⟨[⟨"Full Capacity", 100⟩], "Full Capacity"⟩
        ⟨"No Capacity", 50⟩).certs = some ⟨"Full Capacity", 100⟩ ∧
    (add_coc ⟨[⟨"Full Capacity", 100⟩], "Full Capacity"⟩
        ⟨"No Capacity", 50⟩).current_capacity ≠ "Full Capacity" := by
  refine ⟨rfl, ?_, by decide⟩
  decide

/-- C9 as amended: after either COC-insertion operation the case's
`current_capacity` equals the capacity of the certificate just inserted;
this coincides with the capacity of the certificate with the latest end
date only when the new certificate's end date is at least every existing
certificate's end date. -/
theorem add_coc_amended (s : CaseState) (c : Cert)
    (h : ∀ b ∈ s.certs, b.cert_to ≤ c.cert_to) :
    (add_coc s c).current_capacity = c.capacity ∧
    (latestCert (add_coc s c).certs).map Cert.capacity = some c.capacity := by
  refine ⟨rfl, ?_⟩
  rw [show (add_coc s c).certs = s.certs ++ [c] from rfl,
    latestCert_append_ge s.certs c h]
  rfl

/-- Witness for C9 (amended): adding a "Modified Duties" certificate ending
on day 80 to a case whose only certificate ends on day 50. -/
theorem add_coc_amended_witness :
    (add_coc ⟨[⟨"No Capacity", 50⟩], "No Capacity"⟩
        ⟨"Modified Duties", 80⟩).current_capacity = "Modified Duties" ∧
    (latestCert (add_coc ⟨[⟨"No Capacity", 50⟩], "No Capacity"⟩
        ⟨"Modified Duties", 80⟩).certs).map Cert.capacity
      = some "Modified Duties" :=
  add_coc_amended ⟨[⟨"No Capacity", 50⟩], "No Capacity"⟩
    ⟨"Modified Duties", 80⟩ (by decide)

end Workcover
